import Mathlib

/-!
A shallow embedding of the NEAT-style neuroevolution engine
(src/genome.rs, src/trainer.rs, src/config.rs, src/innovation.rs,
src/misc.rs).  Machine floats (`f32`) are modelled exactly as rationals,
except the sigmoid of misc.rs which is modelled over the reals.  Stochastic
draws (`thread_rng`) are modelled either by explicit oracle arguments or by
a finitely-supported rational-weighted distribution, as noted at each
definition.
-/

namespace Neat

/-- One directed weighted edge of a genome (genome.rs, `struct Gene`). -/
structure Gene where
  node_in : Nat
  node_out : Nat
  weight : ℚ
  enabled : Bool
  innovation : Nat
deriving DecidableEq, Inhabited

/-- Node classification (genome.rs, `enum NodeType`). -/
inductive NodeType where
  | Sensor
  | Output
  | Hidden
deriving DecidableEq

/-- A genome (genome.rs, `struct Genome`): ordered gene list, node count
(`node_id`), identity, optional species id, optional cached fitness. -/
structure Genome where
  genes : List Gene
  node_id : Nat
  id : Nat
  species : Option Nat
  fitness : Option ℚ
deriving DecidableEq

/-- genome.rs:77-87 `Genome::classify_node`, parameterized by the trainer's
input/output counts. -/
def classify_node (inputs outputs : Nat) (n : Nat) : NodeType :=
  if n < inputs then .Sensor
  else if n - inputs < outputs then .Output
  else .Hidden

/-- config.rs `struct Config` (numeric fields; `f32` values as ℚ). -/
structure Config where
  population_size : Nat
  population_kill_percent : ℚ
  excess_comp : ℚ
  disjoint_comp : ℚ
  weight_comp : ℚ
  compatibility_threshold : ℚ
  mutate_weight : ℚ
  mutate_weight_reset : ℚ
  mutate_add_node : ℚ
  mutate_add_edge : ℚ
  mutate_add_edge_tries : Nat
  mutate_disable_edge : ℚ
  crossover_keep_disabled : ℚ
  crossover_trys : Nat

/-- config.rs:38-56 `Config::default` (0.8 = 4/5 etc., exact rationals). -/
def defaultConfig : Config :=
  { population_size := 150
    population_kill_percent := 1/5
    excess_comp := 1
    disjoint_comp := 1
    weight_comp := 2/5
    compatibility_threshold := 3
    mutate_weight := 4/5
    mutate_weight_reset := 1/10
    mutate_add_node := 3/100
    mutate_add_edge := 1/20
    mutate_add_edge_tries := 20
    mutate_disable_edge := 0
    crossover_keep_disabled := 2/5
    crossover_trys := 1 }

/-- misc.rs:14-16 `sigmoid`: `1.0 / (1.0 + (-1.0 * inp).exp())`.  The one
definition over ℝ (it involves `exp`); everything else is exact ℚ. -/
noncomputable def sigmoid (inp : ℝ) : ℝ := 1 / (1 + Real.exp (-1 * inp))

/-! ## Genome::distance (genome.rs:94-159), split into the code's locals. -/

/-- The innovation numbers of a genome's genes, in gene order
(genome.rs:96-97). -/
def innovations (g : Genome) : List Nat := g.genes.map (·.innovation)

/-- genome.rs:98-103 `matching_innovations`: innovation numbers of `a`'s
genes (in `a`'s order) that also occur among `b`'s innovation numbers. -/
def matchingInnovations (a b : Genome) : List Nat :=
  (innovations a).filter (fun x => (innovations b).contains x)

/-- genome.rs:106-107 the code's `self_max_innovation` /
`other_max_innovation`: despite the name, the source computes the SUM of the
genome's innovation numbers (`.map(|x| x.innovation).sum::<usize>()`). -/
def maxInnovation (g : Genome) : Nat := (innovations g).sum

/-- genome.rs:108-116: excess count, exactly as the code computes it — the
genes of whichever genome has the larger `maxInnovation` (the `other` side
on a tie), filtered by innovation strictly above the smaller
`maxInnovation`. -/
def excessCount (a b : Genome) : Nat :=
  let minMax := min (maxInnovation a) (maxInnovation b)
  ((if maxInnovation a > maxInnovation b then a.genes else b.genes).filter
    (fun g => minMax < g.innovation)).length

/-- genome.rs:118-123: disjoint count — concatenate `b`'s then `a`'s
innovation numbers, retain those strictly below the smaller `maxInnovation`
that are not matching. -/
def disjointCount (a b : Genome) : Nat :=
  let minMax := min (maxInnovation a) (maxInnovation b)
  let m := matchingInnovations a b
  ((innovations b ++ innovations a).filter
    (fun x => decide (x < minMax) && !(m.contains x))).length

/-- genome.rs:126-129: larger gene count, normalized to 1 below 20. -/
def bigN (a b : Genome) : Nat :=
  let n := max a.genes.length b.genes.length
  if n < 20 then 1 else n

/-- genome.rs:132-136 `self_matching_weight`'s base list: `a`'s genes whose
innovation is matching. -/
def matchGenesA (a b : Genome) : List Gene :=
  a.genes.filter (fun g => (matchingInnovations a b).contains g.innovation)

/-- genome.rs:137-141 `other_matching_weight`'s base list: `b`'s genes whose
innovation is matching (the same `matching_innovations` list). -/
def matchGenesB (a b : Genome) : List Gene :=
  b.genes.filter (fun g => (matchingInnovations a b).contains g.innovation)

/-- genome.rs:132-150: mean absolute weight difference over the two
positionally-zipped matching-weight lists; the division by
`matching_innovations.len()` produces NaN exactly when that length is 0, and
the code then resets `w` to 0 — modelled by the explicit `if`. -/
def avgWeightDiff (a b : Genome) : ℚ :=
  let selfW := (matchGenesA a b).map (·.weight)
  let otherW := (matchGenesB a b).map (·.weight)
  let s := ((selfW.zip otherW).map (fun p => |p.1 - p.2|)).sum
  if (matchingInnovations a b).length = 0 then 0
  else s / ((matchingInnovations a b).length : ℚ)

/-- genome.rs:152-158: the distance equation
`(c1 * e / n) + (c2 * d / n) + c3 * w`. -/
def distance (cfg : Config) (a b : Genome) : ℚ :=
  cfg.excess_comp * (excessCount a b : ℚ) / (bigN a b : ℚ)
    + cfg.disjoint_comp * (disjointCount a b : ℚ) / (bigN a b : ℚ)
    + cfg.weight_comp * avgWeightDiff a b

/-! Spec-side comparison definitions for the distance terms.  These follow
the specification's words (maxima of innovation ids, pairing by equal
innovation id) and exist only to be compared with the source-derived
definitions above. -/

/-- The spec's "maximum innovation id" of a genome. -/
def maxInnovationSpec (g : Genome) : Nat := (innovations g).foldr max 0

/-- The spec's excess count: genes whose innovation exceeds the smaller of
the two genomes' MAXIMUM innovation ids, taken from the genome with the
larger maximum. -/
def excessSpec (a b : Genome) : Nat :=
  let minMax := min (maxInnovationSpec a) (maxInnovationSpec b)
  ((if maxInnovationSpec a > maxInnovationSpec b then a.genes else b.genes).filter
    (fun g => minMax < g.innovation)).length

/-- The spec's disjoint count: genes with innovation below the shared
maximum that appear in only one genome. -/
def disjointSpec (a b : Genome) : Nat :=
  let minMax := min (maxInnovationSpec a) (maxInnovationSpec b)
  let m := matchingInnovations a b
  ((innovations b ++ innovations a).filter
    (fun x => decide (x < minMax) && !(m.contains x))).length

/-- The spec's W̄: each matching gene of `a` paired with the gene of `b`
that has the same innovation id; 0 when there are no matching genes. -/
def avgWeightDiffSpec (a b : Genome) : ℚ :=
  let matched := matchGenesA a b
  let diffs := matched.map (fun g =>
    match b.genes.find? (fun h => h.innovation == g.innovation) with
    | some h => |g.weight - h.weight|
    | none => 0)
  if matched.length = 0 then 0 else diffs.sum / (matched.length : ℚ)

/-! ## NetworkEvaluator (genome.rs:341-408, `Genome::simulate` /
`NodeTester::prop`).

`prop(to)` sums, over enabled genes into `to`, the weighted value of the
gene's source: a sensor node reads the supplied input, any other node is
evaluated by the same recursion (the `NodeTester` map stores sensors as
`Some`, outputs as `None`, and `or_default` yields `None` for hidden nodes,
so every non-sensor source recurses; no computed value is ever written
back).  The source recursion has no fuel and terminates because evaluation
is only ever invoked on acyclic gene graphs; here the recursion carries an
explicit fuel, ample whenever fuel exceeds the recursion depth. -/

def propFuel (genes : List Gene) (sensors : List ℚ) (inputs : Nat) :
    Nat → Nat → ℚ
  | 0, _ => 0
  | fuel + 1, tgt =>
    ((genes.filter (fun g => g.enabled && g.node_out == tgt)).map
      (fun g =>
        (if g.node_in < inputs then sensors.getD g.node_in 0
         else propFuel genes sensors inputs fuel g.node_in) * g.weight)).sum

/-- genome.rs:341-350 `Genome::simulate`: one `prop` per output node, in
order.  Fuel `g.node_id + 1` bounds the recursion depth on any acyclic
genome (depth is at most the node count). -/
def simulate (inputs outputs : Nat) (g : Genome) (sensors : List ℚ) :
    List ℚ :=
  (List.range outputs).map (fun o =>
    propFuel g.genes sensors inputs (g.node_id + 1) (inputs + o))

/-! ## Cycle checking (genome.rs:184-207, 427-437). -/

/-- genome.rs:427-437 `is_recursive_checker`: the loop body over the
out-edges of the current node.  `seen` marks persist across loop iterations
at one level; each recursive descent receives a clone of the current marks
(`seen_nodes.clone()`), so marks made inside a descent do not flow back.
Fuel replaces the source's unbounded recursion and, to keep the recursion
structural, also ticks down across loop iterations at one level; it is
ample whenever it exceeds the total number of loop steps the source would
take, which holds at every use in this file. -/
def recLoop (genes : List Gene) : Nat → List Gene → List Bool → Bool
  | 0, _, _ => false
  | _ + 1, [], _ => false
  | fuel + 1, g :: rest, seen =>
    let s := seen.getD g.node_out false
    let seen2 := seen.set g.node_out true
    if s then true
    else if recLoop genes fuel
              (genes.filter (fun x => x.enabled && x.node_in == g.node_out))
              seen2 then true
    else recLoop genes fuel rest seen2

/-- genome.rs:196-207 `Genome::is_recursive`: run the checker from every
sensor node with a fresh `node_id`-sized mark vector seeded at that
sensor. -/
def is_recursive (inputs : Nat) (g : Genome) : Bool :=
  (List.range inputs).any (fun i =>
    recLoop g.genes ((g.node_id + 1) * (g.genes.length + 1))
      (g.genes.filter (fun x => x.enabled && x.node_in == i))
      ((List.replicate g.node_id false).set i true))

/-- genome.rs:184-194 `Genome::would_be_recursive`: clone, push the probe
gene `a → b` (weight 0, enabled, innovation 0), and re-check. -/
def would_be_recursive (inputs : Nat) (g : Genome) (a b : Nat) : Bool :=
  is_recursive inputs
    { g with genes := g.genes ++ [⟨a, b, 0, true, 0⟩] }

/-- genome.rs:422-424 `Gene::connects`: the gene joins `a` and `b` in
either orientation. -/
def connects (g : Gene) (a b : Nat) : Bool :=
  (g.node_in == a && g.node_out == b) || (g.node_in == b && g.node_out == a)

/-! ## Add-edge mutation (genome.rs:228-257). -/

/-- genome.rs:230-235: the candidate pool for both endpoints — the set of
node indices occurring as `node_out` of some gene (a `HashSet`; modelled by
`dedup`, membership is all that matters). -/
def edgeCandidates (g : Genome) : List Nat :=
  (g.genes.map (·.node_out)).dedup

/-- genome.rs:245-250: the acceptance test for a candidate pair — the
negation of the rejection disjunction (`a == b`, an existing connection in
either direction, `a` an Output, `b` a Sensor, or the edge would make the
graph recursive). -/
def addEdgeAccept (inputs outputs : Nat) (g : Genome) (a b : Nat) : Bool :=
  !(a == b
    || g.genes.any (fun x => connects x a b)
    || (classify_node inputs outputs a == .Output)
    || (classify_node inputs outputs b == .Sensor)
    || would_be_recursive inputs g a b)

/-! ## Innovation registry (innovation.rs:35-41). -/

/-- innovation.rs `struct Innovations`: edge counter plus the
`past_connection` association map, and the genome counter. -/
structure Innovations where
  edge_count : Nat
  past_connection : List ((Nat × Nat) × Nat)
  genome_count : Nat
deriving DecidableEq

/-- The fresh registry (innovation.rs:25-31). -/
def initInnovations : Innovations := ⟨0, [], 0⟩

/-- innovation.rs:35-41 `Innovations::new_edge`: return the recorded id for
the ordered pair if present, else allocate the next id and record it. -/
def new_edge (s : Innovations) (x : Nat × Nat) : Nat × Innovations :=
  match s.past_connection.lookup x with
  | some n => (n, s)
  | none =>
    (s.edge_count,
      { s with
        edge_count := s.edge_count + 1
        past_connection := (x, s.edge_count) :: s.past_connection })

/-- innovation.rs:47-49 `Innovations::new_genome`. -/
def new_genome (s : Innovations) : Nat × Innovations :=
  (s.genome_count, { s with genome_count := s.genome_count + 1 })

/-! ## Genome::new (genome.rs:57-75). -/

/-- One `Gene::random` (genome.rs:412-420) per `(from, to, weight)` triple,
threading the registry; the random weight draw is the oracle-supplied ℚ in
the triple. -/
def makeGenes : List (Nat × Nat × ℚ) → Innovations → List Gene × Innovations
  | [], s => ([], s)
  | x :: rest, s =>
    let r1 := new_edge s (x.1, x.2.1)
    let r2 := makeGenes rest r1.2
    (⟨x.1, x.2.1, x.2.2, true, r1.1⟩ :: r2.1, r2.2)

/-- genome.rs:60-65: the double loop `for i in 0..inputs { for o in
0..outputs { push Gene::random(i, inputs + o) } }`, as the list of its
`(from, to, weight)` triples in iteration order; `w` is the weight
oracle. -/
def initPairs (inputs outputs : Nat) (w : Nat → Nat → ℚ) :
    List (Nat × Nat × ℚ) :=
  (List.range inputs).flatMap (fun i =>
    (List.range outputs).map (fun o => (i, inputs + o, w i o)))

/-- genome.rs:57-75 `Genome::new`: fully build the gene list, then a fresh
genome id, `node_id = inputs + outputs`, no species, no fitness. -/
def Genome.new (inputs outputs : Nat) (w : Nat → Nat → ℚ)
    (s0 : Innovations) : Genome × Innovations :=
  let r := makeGenes (initPairs inputs outputs w) s0
  let rg := new_genome r.2
  ({ genes := r.1
     node_id := inputs + outputs
     id := rg.1
     species := none
     fitness := none }, rg.2)

/-! ## Add-node mutation (genome.rs:259-294). -/

/-- The support of the source's split-gene selection (genome.rs:261-272).
Below 15 genes the code samples a `WeightedIndex` whose weights
`len, len-1, …, 1` are all positive, so EVERY index below the gene count
(enabled or not) can be drawn; at 15 or more it chooses uniformly among
enabled genes only. -/
def addNodeChoiceValid (g : Genome) (k : Nat) : Prop :=
  (g.genes.length < 15 ∧ k < g.genes.length) ∨
    (15 ≤ g.genes.length ∧ k < g.genes.length ∧
      (g.genes.getD k default).enabled = true)

instance (g : Genome) (k : Nat) : Decidable (addNodeChoiceValid g k) := by
  unfold addNodeChoiceValid
  infer_instance

/-- genome.rs:274-293: disable the chosen gene, append
`old_in → node_id` with weight exactly 1 and a fresh innovation, then
`node_id → old_out` with the oracle weight `w2` and a fresh innovation
(`Gene::random`), and increment `node_id`.  `k` is the oracle for the
sampled gene index. -/
def addNode (g : Genome) (k : Nat) (w2 : ℚ) (s : Innovations) :
    Genome × Innovations :=
  let gene := g.genes.getD k default
  let genes1 := g.genes.set k { gene with enabled := false }
  let (n1, s1) := new_edge s (gene.node_in, g.node_id)
  let (n2, s2) := new_edge s1 (g.node_id, gene.node_out)
  ({ g with
     genes := genes1 ++
       [⟨gene.node_in, g.node_id, 1, true, n1⟩,
        ⟨g.node_id, gene.node_out, w2, true, n2⟩]
     node_id := g.node_id + 1 }, s2)

/-! ## A finitely-supported distribution, for the stochastic one-step
claims.  `bern p` models `rng.gen_bool(p)` (true with probability `p`). -/

/-- A finitely-supported distribution: outcomes with rational masses. -/
def Dist (α : Type) : Type := List (α × ℚ)

/-- The point distribution. -/
def Dist.dpure {α : Type} (a : α) : Dist α := [(a, 1)]

/-- Sequencing: multiply path probabilities. -/
def Dist.dbind {α β : Type} (d : Dist α) (f : α → Dist β) : Dist β :=
  d.flatMap (fun x => (f x.1).map (fun y => (y.1, x.2 * y.2)))

/-- `rng.gen_bool(p)`: true with probability `p`. -/
def bern (p : ℚ) : Dist Bool := [(true, p), (false, 1 - p)]

/-- Probability of an event under a distribution. -/
def Dist.prob {α : Type} (d : Dist α) (ev : α → Bool) : ℚ :=
  ((d.filter (fun x => ev x.1)).map (·.2)).sum

/-! ## Crossover, matching-gene step (genome.rs:306-313). -/

/-- genome.rs:306-313: for one matching pair `(a, b)` (`a` from `self`,
`b` from `other`), take `a` if `rng.gen_bool(0.4)` else `b`; if the taken
copy is disabled and `!rng.gen_bool(crossover_keep_disabled)`, re-enable
it. -/
def crossoverMatch (keep_disabled : ℚ) (a b : Gene) : Dist Gene :=
  Dist.dbind (bern (2/5)) (fun pick =>
    let gene := if pick then a else b
    if gene.enabled then Dist.dpure gene
    else
      Dist.dbind (bern keep_disabled) (fun keep =>
        if keep then Dist.dpure gene
        else Dist.dpure { gene with enabled := true }))

/-! ## Weight mutation, per-gene decision structure (genome.rs:214-221). -/

/-- What happens to one enabled gene's weight in a mutation pass. -/
inductive WAction where
  | reset
  | scale
  | keepw
deriving DecidableEq

/-- genome.rs:215-221: `if rng.gen_bool(mutate_weight) { if
rng.gen_bool(mutate_weight) { reset } else { scale } }` — the inner draw
uses `config.mutate_weight` again, not `config.mutate_weight_reset`. -/
def weightAction (mutate_weight : ℚ) : Dist WAction :=
  Dist.dbind (bern mutate_weight) (fun changed =>
    if changed then
      Dist.dbind (bern mutate_weight) (fun r =>
        if r then Dist.dpure .reset else Dist.dpure .scale)
    else Dist.dpure .keepw)

/-! ## Repopulation, one offspring slot (trainer.rs:191-206). -/

/-- trainer.rs:191-206: the retry loop for one slot.  `cross k` is the
`k`-th crossover attempt.  The loop body assigns `new = Some(child)` BEFORE
the cycle check; exhausting `tries` therefore leaves the last (cyclic)
child in `new`, and `None` (the slot being skipped) is only possible when
the budget is 0 before the first attempt. -/
def repopulateSlotGo (inputs : Nat) (cross : Nat → Genome) :
    Nat → Nat → Option Genome → Option Genome
  | 0, _, cur => cur
  | t + 1, k, _ =>
    let c := cross k
    if is_recursive inputs c then repopulateSlotGo inputs cross t (k + 1) (some c)
    else some c

/-- The slot's final `new` value, started from `None` with the configured
budget (trainer.rs:191-192 uses `config.mutate_add_edge_tries`). -/
def repopulateSlot (inputs : Nat) (tries : Nat) (cross : Nat → Genome) :
    Option Genome :=
  repopulateSlotGo inputs cross tries 0 none

/-! ## Concrete instances used by the claim theorems and witnesses. -/

/-- Two sensors, one output, both genes weight 1 and enabled. -/
def gSim : Genome := ⟨[⟨0, 2, 1, true, 0⟩, ⟨1, 2, 1, true, 1⟩], 3, 0, none, none⟩

/-- One sensor; the enabled hidden cycle 2 → 3 → 2 is reachable from it. -/
def gCyc : Genome :=
  ⟨[⟨0, 2, 1, true, 0⟩, ⟨2, 3, 1, true, 1⟩, ⟨3, 2, 1, true, 2⟩], 4, 0, none, none⟩

/-- A genome whose single gene has innovation 3 (sum = max = 3). -/
def gA3 : Genome := ⟨[⟨0, 1, 0, true, 3⟩], 2, 0, none, none⟩

/-- A genome with innovations 0, 1, 2 (sum 3, max 2). -/
def gB012 : Genome :=
  ⟨[⟨0, 1, 0, true, 0⟩, ⟨0, 1, 0, true, 1⟩, ⟨0, 1, 0, true, 2⟩], 2, 1, none, none⟩

/-- Matching innovations 0 and 1 listed in the order 0, 1. -/
def gOrd1 : Genome := ⟨[⟨0, 2, 0, true, 0⟩, ⟨1, 2, 1, true, 1⟩], 3, 0, none, none⟩

/-- The same innovations with identical weights, listed in the order 1, 0. -/
def gOrd2 : Genome := ⟨[⟨1, 2, 1, true, 1⟩, ⟨0, 2, 0, true, 0⟩], 3, 1, none, none⟩

/-- Matching innovations 0 and 1 in the SAME order as `gOrd1`, with
different weights. -/
def gOrdSame : Genome :=
  ⟨[⟨0, 2, 1/2, true, 0⟩, ⟨1, 2, 1/4, true, 1⟩], 3, 2, none, none⟩

/-- An enabled matching gene of the first parent. -/
def gMa : Gene := ⟨0, 1, 1, true, 5⟩

/-- The second parent's copy: same innovation, different weight. -/
def gMb : Gene := ⟨0, 1, -1, true, 5⟩

/-- A one-gene genome whose only gene is disabled. -/
def gDis : Genome := ⟨[⟨0, 1, 1, false, 0⟩], 2, 0, none, none⟩

/-- One sensor (node 0), one output (node 1), one hidden node (node 2)
reached by an enabled gene; a second gene feeds the output directly. -/
def gEdge : Genome := ⟨[⟨0, 2, 1, true, 0⟩, ⟨0, 1, 1, true, 1⟩], 3, 0, none, none⟩

/-! ## Claim theorems. -/

/-- C1: the claim says each output value is `squash` (the logistic sigmoid)
of the weighted sum, with sigmoid applied to every hidden and output sum.
The code applies no squash at all: on the two-sensor genome `gSim` with
both weights 1 and sensor values (1, 1), `simulate` returns the raw sum 2,
while every sigmoid value is strictly below 1 — so the output cannot be the
sigmoid of anything. -/
theorem simulate_missing_sigmoid_bug :
    simulate 2 1 gSim [1, 1] = [2] ∧ (∀ x : ℝ, sigmoid x < 1) ∧ (1 : ℝ) < 2 := by
  refine ⟨?_, ?_, by norm_num⟩
  · simp [simulate, propFuel, gSim, List.filter, List.range_succ, List.range_zero,
      List.getD]
    norm_num
  · intro x
    have hx : 0 < Real.exp (-1 * x) := Real.exp_pos _
    have h1 : (0 : ℝ) < 1 + Real.exp (-1 * x) := by linarith
    show (1 : ℝ) / (1 + Real.exp (-1 * x)) < 1
    rw [div_lt_one h1]
    linarith

/-- C2: the claim says an exhausted retry budget fills the slot with an
asexual clone of the first parent and never with a cyclic child.  In
trainer.rs the loop assigns `new = Some(child)` before the cycle test, so
when every crossover attempt is cyclic the exhausted loop leaves the last
cyclic child in `new` and it is pushed: with the default budget of 20 and a
crossover that always yields the cyclic genome `gCyc`, the slot receives
`gCyc` itself, which `is_recursive` reports as cyclic. -/
theorem repopulate_pushes_cyclic_child :
    is_recursive 1 gCyc = true ∧
      repopulateSlot 1 defaultConfig.mutate_add_edge_tries (fun _ => gCyc) =
        some gCyc := by
  constructor
  · decide
  · decide

/-- C3: the claim (and the spec) compare the genomes' MAXIMUM innovation
ids; genome.rs:106-107 computes the SUM of each genome's innovation ids
into variables named `max_innovation`.  With `gA3` (single innovation 3,
sum 3, max 3) and `gB012` (innovations 0, 1, 2, sum 3, max 2) the code ties
on the sums, takes the excess genes from the wrong genome with the wrong
bound, and reports E = 0 and D = 3 where the claim's maxima give E = 1 and
D = 2. -/
theorem distance_sum_not_max_bug :
    excessCount gA3 gB012 = 0 ∧ disjointCount gA3 gB012 = 3 ∧
      excessSpec gA3 gB012 = 1 ∧ disjointSpec gA3 gB012 = 2 := by
  refine ⟨by decide, by decide, by decide, by decide⟩

/-- C4 counterexample: the claim pairs matching genes by equal innovation
id; the code zips the two filtered weight lists positionally.  `gOrd1` and
`gOrd2` hold the same two matching genes (innovation 0 with weight 0,
innovation 1 with weight 1) in opposite orders: pairing by innovation id
gives a mean weight difference of 0, but the code's positional zip pairs
weight 0 with weight 1 twice and returns 1. -/
theorem avg_weight_positional_counterexample :
    avgWeightDiff gOrd1 gOrd2 = 1 ∧ avgWeightDiffSpec gOrd1 gOrd2 = 0 ∧
      (1 : ℚ) ≠ 0 := by
  refine ⟨?_, ?_, by norm_num⟩
  · simp [avgWeightDiff, matchGenesA, matchGenesB, matchingInnovations,
      innovations, gOrd1, gOrd2, List.filter, List.zip, List.zipWith]
  · simp [avgWeightDiffSpec, matchGenesA, matchingInnovations, innovations,
      gOrd1, gOrd2, List.filter, List.find?]

/-- C5 counterexample: the claim says each matching gene is inherited
uniformly at random (probability 1/2 each).  genome.rs:307 draws
`rng.gen_bool(0.4)` for the first parent's copy: on the concrete enabled
matching pair `gMa`/`gMb` the child is `gMa` with probability 2/5, not
1/2. -/
theorem crossover_match_prob_counterexample :
    Dist.prob (crossoverMatch (2/5) gMa gMb) (fun x => decide (x = gMa)) = 2/5 ∧
      (2/5 : ℚ) ≠ 1/2 := by
  constructor
  · simp [Dist.prob, crossoverMatch, Dist.dbind, Dist.dpure, bern, gMa, gMb,
      List.filter]
    norm_num
  · norm_num

/-- C6: the claim (and config.rs's own doc comment on
`mutate_weight_reset`, "The chance to reset an edges weight (if being
mutated)") makes the reset sub-probability `mutate_weight_reset`; the code
at genome.rs:216 draws the sub-choice with `config.mutate_weight` again,
and `mutate_weight_reset` is read nowhere.  Under the default config
(mutate_weight = 4/5, mutate_weight_reset = 1/10) a gene's weight is reset
with probability 16/25 and scaled with probability 4/25, i.e. the
conditional reset probability is 4/5 ≠ 1/10. -/
theorem weight_reset_prob_bug :
    Dist.prob (weightAction defaultConfig.mutate_weight)
        (fun x => decide (x = .reset)) = 16/25 ∧
      Dist.prob (weightAction defaultConfig.mutate_weight)
        (fun x => decide (x = .scale)) = 4/25 ∧
      (16/25 : ℚ) / (16/25 + 4/25) = defaultConfig.mutate_weight ∧
      defaultConfig.mutate_weight_reset = 1/10 ∧
      defaultConfig.mutate_weight ≠ defaultConfig.mutate_weight_reset := by
  refine ⟨?_, ?_, by norm_num [defaultConfig], by norm_num [defaultConfig],
    by norm_num [defaultConfig]⟩
  · simp [Dist.prob, weightAction, Dist.dbind, Dist.dpure, bern, defaultConfig,
      List.filter]
    norm_num
  · simp [Dist.prob, weightAction, Dist.dbind, Dist.dpure, bern, defaultConfig,
      List.filter]
    norm_num

/-- C7 counterexample: the claim says add-node always chooses an existing
ENABLED gene and leaves exactly one fewer enabled gene among the
pre-existing genes.  Below 15 genes the code samples a `WeightedIndex` over
ALL genes (genome.rs:261-265): on the one-gene genome `gDis`, whose only
gene is disabled, index 0 is the only possible draw (probability 1), the
chosen gene is disabled, and the enabled count among the pre-existing genes
stays 0 instead of dropping by one. -/
theorem add_node_disabled_counterexample :
    addNodeChoiceValid gDis 0 ∧
      (gDis.genes.getD 0 default).enabled = false ∧
      ((addNode gDis 0 (1/2) initInnovations).1.genes.take
          gDis.genes.length).countP (·.enabled) =
        gDis.genes.countP (·.enabled) ∧
      (addNode gDis 0 (1/2) initInnovations).1.genes.length =
        gDis.genes.length + 2 := by
  refine ⟨by decide, by decide, by decide, by decide⟩

/-! Helper lemmas about `Genome.new`'s gene construction. -/

/-- Every field of the genes `makeGenes` builds, apart from the innovation
id, comes straight from the input triples, in order. -/
theorem makeGenes_shape (l : List (Nat × Nat × ℚ)) : ∀ s : Innovations,
    (makeGenes l s).1.map (fun g => (g.node_in, g.node_out, g.weight, g.enabled))
      = l.map (fun x => (x.1, x.2.1, x.2.2, true)) := by
  induction l with
  | nil => intro s; simp [makeGenes]
  | cons x xs ih => intro s; simp [makeGenes, ih]

/-- The initial double loop visits `inputs * outputs` pairs. -/
theorem initPairs_length (inputs outputs : Nat) (w : Nat → Nat → ℚ) :
    (initPairs inputs outputs w).length = inputs * outputs := by
  simp only [initPairs, List.length_flatMap]
  have hconst : (List.length ∘ fun i =>
      List.map (fun o => (i, inputs + o, w i o)) (List.range outputs))
      = fun _ => outputs := by
    funext i; simp
  rw [hconst, List.map_const', List.sum_replicate, smul_eq_mul,
    List.length_range, mul_comm]

/-- Every sensor-output pair occurs among the initial triples. -/
theorem mem_initPairs_intro {inputs outputs : Nat} (w : Nat → Nat → ℚ)
    {i o : Nat} (hi : i < inputs) (ho : o < outputs) :
    (i, inputs + o, w i o) ∈ initPairs inputs outputs w := by
  simp only [initPairs, List.mem_flatMap, List.mem_map, List.mem_range]
  exact ⟨i, hi, o, ho, rfl⟩

/-- Every initial triple is a sensor-output pair. -/
theorem mem_initPairs_elim {inputs outputs : Nat} {w : Nat → Nat → ℚ}
    {x : Nat × Nat × ℚ} (hx : x ∈ initPairs inputs outputs w) :
    ∃ i o, i < inputs ∧ o < outputs ∧ x = (i, inputs + o, w i o) := by
  simp only [initPairs, List.mem_flatMap, List.mem_map, List.mem_range] at hx
  obtain ⟨i, hi, o, ho, hx⟩ := hx
  exact ⟨i, o, hi, ho, hx.symm⟩

/-- C9: `Genome::new` builds the fully connected sensor-to-output topology:
exactly `inputs * outputs` genes, an enabled gene from every sensor to
every output (with the drawn weight), every gene running from a sensor to
an output, no hidden nodes (`node_id = inputs + outputs`), no species id
and no cached fitness. -/
theorem genome_new_initial_topology (inputs outputs : Nat)
    (w : Nat → Nat → ℚ) (s : Innovations) :
    (Genome.new inputs outputs w s).1.genes.length = inputs * outputs ∧
      (∀ i o, i < inputs → o < outputs →
        ∃ gene ∈ (Genome.new inputs outputs w s).1.genes,
          gene.node_in = i ∧ gene.node_out = inputs + o ∧
          gene.enabled = true ∧ gene.weight = w i o) ∧
      (∀ gene ∈ (Genome.new inputs outputs w s).1.genes,
        gene.node_in < inputs ∧ inputs ≤ gene.node_out ∧
        gene.node_out < inputs + outputs ∧ gene.enabled = true) ∧
      (Genome.new inputs outputs w s).1.node_id = inputs + outputs ∧
      (Genome.new inputs outputs w s).1.species = none ∧
      (Genome.new inputs outputs w s).1.fitness = none := by
  have hshape := makeGenes_shape (initPairs inputs outputs w) s
  have hgenes : (Genome.new inputs outputs w s).1.genes
      = (makeGenes (initPairs inputs outputs w) s).1 := rfl
  refine ⟨?_, ?_, ?_, rfl, rfl, rfl⟩
  · have hlen := congrArg List.length hshape
    simp only [List.length_map] at hlen
    rw [hgenes, hlen, initPairs_length]
  · intro i o hi ho
    have hpair := mem_initPairs_intro w hi ho
    have : ((i, inputs + o, w i o).1, (i, inputs + o, w i o).2.1,
        (i, inputs + o, w i o).2.2, true)
        ∈ (initPairs inputs outputs w).map (fun x => (x.1, x.2.1, x.2.2, true)) :=
      List.mem_map_of_mem _ hpair
    rw [← hshape] at this
    obtain ⟨gene, hg, hfields⟩ := List.mem_map.mp this
    refine ⟨gene, hgenes ▸ hg, ?_, ?_, ?_, ?_⟩ <;>
      simp_all [Prod.ext_iff]
  · intro gene hg
    have : (gene.node_in, gene.node_out, gene.weight, gene.enabled)
        ∈ (makeGenes (initPairs inputs outputs w) s).1.map
          (fun g => (g.node_in, g.node_out, g.weight, g.enabled)) :=
      List.mem_map_of_mem _ (hgenes ▸ hg)
    rw [hshape] at this
    obtain ⟨x, hx, hfields⟩ := List.mem_map.mp this
    obtain ⟨i, o, hi, ho, rfl⟩ := mem_initPairs_elim hx
    simp only [Prod.ext_iff] at hfields
    obtain ⟨h1, h2, _, h4⟩ := hfields
    refine ⟨?_, ?_, ?_, ?_⟩
    · rw [← h1]; exact hi
    · rw [← h2]; exact Nat.le_add_right _ _
    · rw [← h2]; exact Nat.add_lt_add_left ho _
    · exact h4.symm

/-- Witness for C9 at inputs = 2, outputs = 1: the gene count is 2 and the
sensor-1-to-output gene exists. -/
theorem genome_new_initial_topology_witness :
    (Genome.new 2 1 (fun _ _ => 1/2) initInnovations).1.genes.length = 2 * 1 ∧
      ∃ gene ∈ (Genome.new 2 1 (fun _ _ => 1/2) initInnovations).1.genes,
        gene.node_in = 1 ∧ gene.node_out = 2 + 0 ∧
        gene.enabled = true ∧ gene.weight = (fun _ _ => (1 : ℚ)/2) 1 0 :=
  ⟨(genome_new_initial_topology 2 1 (fun _ _ => 1/2) initInnovations).1,
    (genome_new_initial_topology 2 1 (fun _ _ => 1/2) initInnovations).2.1 1 0
      (by decide) (by decide)⟩

/-- C10: both add-edge endpoints are drawn from the `node_out` pool
(genome.rs:230-240), and acceptance rejects Output sources; hence, as long
as no gene of the genome terminates at a Sensor node (an invariant of every
constructed genome), any accepted source `a` occurs as some gene's
`node_out` and is a Hidden node — the appended gene `a → b` never has a
Sensor source. -/
theorem add_edge_source_hidden (inputs outputs : Nat) (g : Genome)
    (a b : Nat) (hmem : a ∈ edgeCandidates g)
    (hacc : addEdgeAccept inputs outputs g a b = true)
    (hout : ∀ x ∈ g.genes, classify_node inputs outputs x.node_out ≠ .Sensor) :
    (∃ x ∈ g.genes, x.node_out = a) ∧
      classify_node inputs outputs a = .Hidden := by
  have hmem2 : a ∈ g.genes.map (·.node_out) := by
    have := hmem
    simp only [edgeCandidates, List.mem_dedup] at this
    exact this
  obtain ⟨x, hxg, hxa⟩ := List.mem_map.mp hmem2
  have hnotOut : classify_node inputs outputs a ≠ .Output := by
    intro hcl
    simp [addEdgeAccept, hcl] at hacc
  have hnotSen : classify_node inputs outputs a ≠ .Sensor := hxa ▸ hout x hxg
  refine ⟨⟨x, hxg, hxa⟩, ?_⟩
  cases hcl : classify_node inputs outputs a with
  | Sensor => exact absurd hcl hnotSen
  | Output => exact absurd hcl hnotOut
  | Hidden => rfl

/-- Witness for C10 on `gEdge`: node 2 is in the candidate pool, the pair
(2, 1) is accepted, and 2 is classified Hidden. -/
theorem add_edge_source_hidden_witness :
    (2 ∈ edgeCandidates gEdge ∧ addEdgeAccept 1 1 gEdge 2 1 = true) ∧
      classify_node 1 1 2 = .Hidden :=
  ⟨⟨by decide, by decide⟩,
    (add_edge_source_hidden 1 1 gEdge 2 1 (by decide) (by decide)
      (by decide)).2⟩

/-! Helper lemmas for the distance-symmetry claim. -/

/-- Each innovation id is at most the code's per-genome innovation sum. -/
theorem innov_le_maxInnovation {g : Genome} {x : Gene} (hx : x ∈ g.genes) :
    x.innovation ≤ maxInnovation g :=
  List.le_sum_of_mem (List.mem_map_of_mem _ hx)

/-- Membership in the matching-innovation list is membership in both
genomes' innovation lists. -/
theorem mem_matchingInnovations {a b : Genome} {x : Nat} :
    x ∈ matchingInnovations a b ↔ x ∈ innovations a ∧ x ∈ innovations b := by
  simp [matchingInnovations, List.mem_filter, List.elem_iff]

/-- The matching test does not depend on the order of the two genomes. -/
theorem contains_matching_symm (a b : Genome) (x : Nat) :
    (matchingInnovations a b).contains x = (matchingInnovations b a).contains x := by
  apply Bool.eq_iff_iff.mpr
  simp only [List.contains, List.elem_iff]
  rw [mem_matchingInnovations, mem_matchingInnovations, and_comm]

/-- The code's excess count is symmetric: the strict comparisons select the
same gene list in both directions, and on a tied innovation sum both
filters are empty because no innovation exceeds its own genome's sum. -/
theorem excessCount_symm (a b : Genome) : excessCount a b = excessCount b a := by
  simp only [excessCount]
  rcases Nat.lt_trichotomy (maxInnovation a) (maxInnovation b) with h | h | h
  · rw [if_neg (by omega), if_pos (by omega), Nat.min_comm]
  · rw [if_neg (by omega), if_neg (by omega)]
    have hL : (b.genes.filter fun g =>
        decide (min (maxInnovation a) (maxInnovation b) < g.innovation)) = [] := by
      apply List.filter_eq_nil_iff.mpr
      intro g hg
      have hle := innov_le_maxInnovation hg
      simp only [decide_eq_true_eq]
      omega
    have hR : (a.genes.filter fun g =>
        decide (min (maxInnovation b) (maxInnovation a) < g.innovation)) = [] := by
      apply List.filter_eq_nil_iff.mpr
      intro g hg
      have hle := innov_le_maxInnovation hg
      simp only [decide_eq_true_eq]
      omega
    rw [hL, hR]
  · rw [if_pos (by omega), if_neg (by omega), Nat.min_comm]

/-- The code's disjoint count is symmetric: the retained elements are the
same, and the two concatenation orders only permute them. -/
theorem disjointCount_symm (a b : Genome) :
    disjointCount a b = disjointCount b a := by
  simp only [disjointCount]
  rw [Nat.min_comm (maxInnovation b) (maxInnovation a)]
  have h1 : (innovations b ++ innovations a).filter
        (fun x => decide (x < min (maxInnovation a) (maxInnovation b)) &&
          !((matchingInnovations a b).contains x))
      = (innovations b ++ innovations a).filter
        (fun x => decide (x < min (maxInnovation a) (maxInnovation b)) &&
          !((matchingInnovations b a).contains x)) := by
    apply List.filter_congr
    intro x _
    rw [contains_matching_symm]
  rw [h1, List.filter_append, List.filter_append, List.length_append,
    List.length_append, Nat.add_comm]

/-- The normalized larger gene count is symmetric. -/
theorem bigN_symm (a b : Genome) : bigN a b = bigN b a := by
  simp only [bigN]
  rw [Nat.max_comm]

/-- Swapping both lists of a zip leaves the summed absolute differences
unchanged. -/
theorem zipAbsComm : ∀ l1 l2 : List ℚ,
    ((l1.zip l2).map (fun p => |p.1 - p.2|)).sum
      = ((l2.zip l1).map (fun p => |p.1 - p.2|)).sum := by
  intro l1
  induction l1 with
  | nil => intro l2; cases l2 <;> simp
  | cons x xs ih =>
    intro l2
    cases l2 with
    | nil => simp
    | cons y ys => simp [ih ys, abs_sub_comm]

/-- The second filtered gene list is the first one of the swapped pair. -/
theorem matchGenesB_eq_swap (a b : Genome) :
    matchGenesB a b = matchGenesA b a := by
  apply List.filter_congr
  intro g _
  exact contains_matching_symm a b g.innovation

/-- Under duplicate-free innovation lists the matching lists of the two
directions have equal length. -/
theorem matchingInnovations_length_symm (a b : Genome)
    (ha : (innovations a).Nodup) (hb : (innovations b).Nodup) :
    (matchingInnovations a b).length = (matchingInnovations b a).length := by
  apply List.Perm.length_eq
  apply (List.perm_ext_iff_of_nodup (ha.filter _) (hb.filter _)).mpr
  intro x
  rw [show (innovations a).filter (fun x => (innovations b).contains x)
      = matchingInnovations a b from rfl,
    show (innovations b).filter (fun x => (innovations a).contains x)
      = matchingInnovations b a from rfl,
    mem_matchingInnovations, mem_matchingInnovations, and_comm]

/-- The mean-absolute-weight-difference term is symmetric (the two zips
pair the same genes, and the divisors agree when each genome's innovation
ids are duplicate-free). -/
theorem avgWeightDiff_symm (a b : Genome)
    (ha : (innovations a).Nodup) (hb : (innovations b).Nodup) :
    avgWeightDiff a b = avgWeightDiff b a := by
  simp only [avgWeightDiff]
  rw [matchGenesB_eq_swap a b, matchGenesB_eq_swap b a,
    matchingInnovations_length_symm a b ha hb, zipAbsComm]

/-- C8: `distance(A,B) = distance(B,A)` — exactly, in the rational model —
for all genomes whose innovation lists are duplicate-free (an invariant of
every genome the system builds), including tied maximum (here: summed)
innovation ids. -/
theorem distance_symm (cfg : Config) (a b : Genome)
    (ha : (innovations a).Nodup) (hb : (innovations b).Nodup) :
    distance cfg a b = distance cfg b a := by
  unfold distance
  rw [excessCount_symm, disjointCount_symm, bigN_symm,
    avgWeightDiff_symm a b ha hb]

/-- Witness for C8 on the concrete pair `gOrd1`, `gOrd2`. -/
theorem distance_symm_witness :
    ((innovations gOrd1).Nodup ∧ (innovations gOrd2).Nodup) ∧
      distance defaultConfig gOrd1 gOrd2 = distance defaultConfig gOrd2 gOrd1 :=
  ⟨⟨by decide, by decide⟩,
    distance_symm defaultConfig gOrd1 gOrd2 (by decide) (by decide)⟩

/-- C5 amended: for each matching pair the child inherits the FIRST
parent's copy with probability 2/5 (the source's `gen_bool(0.4)`) and the
second parent's with probability 3/5 — not uniformly; the re-enable rule is
as claimed: a disabled inherited copy is re-enabled with probability
`1 - crossover_keep_disabled`. -/
theorem crossover_match_amended (a b : Gene) (keep : ℚ)
    (hne : a ≠ b) (hbe : b.enabled = true) :
    (a.enabled = true →
      Dist.prob (crossoverMatch keep a b) (fun x => decide (x = a)) = 2/5 ∧
        Dist.prob (crossoverMatch keep a b) (fun x => decide (x = b)) = 3/5) ∧
    (a.enabled = false → { a with enabled := true } ≠ b →
      Dist.prob (crossoverMatch keep a b)
          (fun x => decide (x = { a with enabled := true })) = 2/5 * (1 - keep) ∧
        Dist.prob (crossoverMatch keep a b) (fun x => decide (x = a)) = 2/5 * keep ∧
        Dist.prob (crossoverMatch keep a b) (fun x => decide (x = b)) = 3/5) := by
  have hba : (decide (b = a)) = false := decide_eq_false (fun h => hne h.symm)
  have hab : (decide (a = b)) = false := decide_eq_false hne
  constructor
  · intro ha
    constructor
    · simp [Dist.prob, crossoverMatch, Dist.dbind, Dist.dpure, bern, ha, hbe,
        List.filter, hba]
    · simp [Dist.prob, crossoverMatch, Dist.dbind, Dist.dpure, bern, ha, hbe,
        List.filter, hab]
      norm_num
  · intro ha hr2
    have hra : a ≠ { a with enabled := true } := by
      intro h
      have := congrArg Gene.enabled h
      rw [ha] at this
      simp at this
    have h1 : (decide (a = { a with enabled := true })) = false :=
      decide_eq_false hra
    have h2 : (decide ({ a with enabled := true } = a)) = false :=
      decide_eq_false (fun h => hra h.symm)
    have h3 : (decide (b = { a with enabled := true })) = false :=
      decide_eq_false (fun h => hr2 h.symm)
    have h4 : (decide ({ a with enabled := true } = b)) = false :=
      decide_eq_false hr2
    refine ⟨?_, ?_, ?_⟩
    · simp [Dist.prob, crossoverMatch, Dist.dbind, Dist.dpure, bern, ha, hbe,
        List.filter, h1, h3]
    · simp [Dist.prob, crossoverMatch, Dist.dbind, Dist.dpure, bern, ha, hbe,
        List.filter, h2, hba]
    · simp [Dist.prob, crossoverMatch, Dist.dbind, Dist.dpure, bern, ha, hbe,
        List.filter, hab, h4]
      norm_num

/-- Witness for C5's amended statement on the concrete enabled pair. -/
theorem crossover_match_amended_witness :
    (gMa ≠ gMb ∧ gMb.enabled = true ∧ gMa.enabled = true) ∧
      Dist.prob (crossoverMatch (2/5) gMa gMb) (fun x => decide (x = gMa)) = 2/5 :=
  ⟨⟨by decide, by decide, by decide⟩,
    ((crossover_match_amended gMa gMb (2/5) (by decide) (by decide)).1
      (by decide)).1⟩

/-! Helper lemmas for the add-node claim. -/

/-- Setting index `k` trades the old element's count contribution for the
new one's. -/
theorem countP_set_add (p : Gene → Bool) :
    ∀ (l : List Gene) (k : Nat) (x : Gene), k < l.length →
      (l.set k x).countP p + (if p (l.getD k default) then 1 else 0)
        = l.countP p + (if p x then 1 else 0) := by
  intro l
  induction l with
  | nil => intro k x hk; simp at hk
  | cons hd tl ih =>
    intro k x hk
    cases k with
    | zero =>
      simp only [List.set, List.getD_cons_zero, List.countP_cons]
      by_cases hpx : p x <;> by_cases hph : p hd <;> simp [hpx, hph]
    | succ n =>
      have hn : n < tl.length := by simpa using hk
      have := ih n x hn
      simp only [List.set, List.getD_cons_succ, List.countP_cons]
      omega

/-- `getD` at the length of the left part reads the appended list's head. -/
theorem getD_append_length (l1 l2 : List Gene) (d : Gene) :
    (l1 ++ l2).getD l1.length d = l2.getD 0 d := by
  induction l1 with
  | nil => simp
  | cons x xs ih => simpa using ih

/-- `getD` one past the length of the left part reads the appended list's
second element. -/
theorem getD_append_length_succ (l1 l2 : List Gene) (d : Gene) :
    (l1 ++ l2).getD (l1.length + 1) d = l2.getD 1 d := by
  induction l1 with
  | nil => simp
  | cons x xs ih => simpa using ih

/-- C7 amended: add-node (for any index in the source selection's support —
below 15 genes that is EVERY gene index, enabled or not; at 15 or more only
enabled ones) appends exactly two genes, `old_in → new_node` with weight
exactly 1 and `new_node → old_out` with the fresh random weight, and
increments the hidden-node count; the enabled count among the pre-existing
genes drops by one exactly when the chosen gene was enabled, which is
guaranteed only in the uniform (≥ 15 genes) branch. -/
theorem add_node_amended (g : Genome) (k : Nat) (w2 : ℚ) (s : Innovations)
    (hk : addNodeChoiceValid g k) :
    (addNode g k w2 s).1.genes.length = g.genes.length + 2 ∧
      (addNode g k w2 s).1.node_id = g.node_id + 1 ∧
      (addNode g k w2 s).1.genes.getD g.genes.length default
        = ⟨(g.genes.getD k default).node_in, g.node_id, 1, true,
            (new_edge s ((g.genes.getD k default).node_in, g.node_id)).1⟩ ∧
      (addNode g k w2 s).1.genes.getD (g.genes.length + 1) default
        = ⟨g.node_id, (g.genes.getD k default).node_out, w2, true,
            (new_edge (new_edge s ((g.genes.getD k default).node_in, g.node_id)).2
              (g.node_id, (g.genes.getD k default).node_out)).1⟩ ∧
      ((addNode g k w2 s).1.genes.take g.genes.length).countP (·.enabled)
          + (if (g.genes.getD k default).enabled then 1 else 0)
        = g.genes.countP (·.enabled) ∧
      (15 ≤ g.genes.length → (g.genes.getD k default).enabled = true) := by
  have hklen : k < g.genes.length := by
    rcases hk with ⟨_, h⟩ | ⟨_, h, _⟩ <;> exact h
  have hsetlen : (g.genes.set k
      { g.genes.getD k default with enabled := false }).length
      = g.genes.length := List.length_set _ _ _
  refine ⟨?_, rfl, ?_, ?_, ?_, ?_⟩
  · simp [addNode, List.length_append, hsetlen]
  · show ((g.genes.set k _) ++ [_, _]).getD g.genes.length default = _
    rw [← hsetlen, getD_append_length]
    rfl
  · show ((g.genes.set k _) ++ [_, _]).getD (g.genes.length + 1) default = _
    rw [← hsetlen, getD_append_length_succ]
    rfl
  · have hgenes : (addNode g k w2 s).1.genes
        = (g.genes.set k { g.genes.getD k default with enabled := false }) ++
            [⟨(g.genes.getD k default).node_in, g.node_id, 1, true,
                (new_edge s ((g.genes.getD k default).node_in, g.node_id)).1⟩,
              ⟨g.node_id, (g.genes.getD k default).node_out, w2, true,
                (new_edge (new_edge s
                    ((g.genes.getD k default).node_in, g.node_id)).2
                  (g.node_id, (g.genes.getD k default).node_out)).1⟩] := rfl
    rw [hgenes]
    rw [show g.genes.length = (g.genes.set k
        { g.genes.getD k default with enabled := false }).length from hsetlen.symm]
    rw [List.take_left]
    have hcnt := countP_set_add (fun x => x.enabled) g.genes k
      { g.genes.getD k default with enabled := false } hklen
    simpa using hcnt
  · intro h15
    rcases hk with ⟨h, _⟩ | ⟨_, _, h⟩
    · omega
    · exact h

/-- Witness for C7's amended statement on the one-disabled-gene genome. -/
theorem add_node_amended_witness :
    addNodeChoiceValid gDis 0 ∧
      (addNode gDis 0 (1/2) initInnovations).1.genes.length
        = gDis.genes.length + 2 :=
  ⟨by decide, (add_node_amended gDis 0 (1/2) initInnovations (by decide)).1⟩

/-! Helper lemmas for the W̄ pairing claim. -/

/-- Filtering the mapped innovations equals mapping the filtered genes. -/
theorem filter_map_innov (p : Nat → Bool) : ∀ l : List Gene,
    (l.map (·.innovation)).filter p
      = (l.filter (fun g => p g.innovation)).map (·.innovation) := by
  intro l
  induction l with
  | nil => simp
  | cons x xs ih => by_cases hx : p x.innovation <;> simp [hx, ih]

/-- On `a`'s own genes the matching test collapses to membership in `b`'s
innovation list. -/
theorem matchGenesA_eq (a b : Genome) :
    matchGenesA a b
      = a.genes.filter (fun g => (innovations b).contains g.innovation) := by
  apply List.filter_congr
  intro g hg
  apply Bool.eq_iff_iff.mpr
  simp only [List.contains, List.elem_iff]
  rw [mem_matchingInnovations]
  exact ⟨fun h => h.2, fun h => ⟨List.mem_map_of_mem _ hg, h⟩⟩

/-- The matching-innovation list is exactly the innovation list of the
matching genes of `a`, in order. -/
theorem matchingInnovations_eq_map (a b : Genome) :
    matchingInnovations a b = (matchGenesA a b).map (·.innovation) := by
  rw [matchGenesA_eq]
  exact filter_map_innov _ a.genes

/-- In a gene list with duplicate-free innovations, searching for a member
gene's innovation finds exactly that gene. -/
theorem find_innov : ∀ l : List Gene, (l.map (·.innovation)).Nodup →
    ∀ {h : Gene}, h ∈ l →
      l.find? (fun x => x.innovation == h.innovation) = some h := by
  intro l
  induction l with
  | nil => intro _ h hm; cases hm
  | cons hd tl ih =>
    intro hnd h hm
    simp only [List.map_cons, List.nodup_cons] at hnd
    rcases List.mem_cons.mp hm with rfl | hmt
    · simp [List.find?]
    · have hne : (hd.innovation == h.innovation) = false := by
        apply beq_eq_false_iff_ne.mpr
        intro he
        exact hnd.1 (he ▸ List.mem_map_of_mem _ hmt)
      simp only [List.find?, hne]
      exact ih hnd.2 hmt

/-- When the two matching gene lists carry the same innovation sequence,
the positional zip of their weights agrees with the find-by-innovation
pairing against a duplicate-free gene list containing the second one. -/
theorem zip_sum_find (bg : List Gene) (hnd : (bg.map (·.innovation)).Nodup) :
    ∀ LA LB : List Gene, (∀ h ∈ LB, h ∈ bg) →
      LA.map (·.innovation) = LB.map (·.innovation) →
      (((LA.map (·.weight)).zip (LB.map (·.weight))).map
        (fun p => |p.1 - p.2|)).sum
        = (LA.map (fun g =>
            match bg.find? (fun x => x.innovation == g.innovation) with
            | some h => |g.weight - h.weight|
            | none => 0)).sum := by
  intro LA
  induction LA with
  | nil =>
    intro LB _ hmap
    cases LB with
    | nil => simp
    | cons y ys => simp at hmap
  | cons x xs ih =>
    intro LB hsub hmap
    cases LB with
    | nil => simp at hmap
    | cons y ys =>
      simp only [List.map_cons, List.cons.injEq] at hmap
      obtain ⟨hxy, hrest⟩ := hmap
      have hy : y ∈ bg := hsub y (List.mem_cons_self _ _)
      have hfindx : bg.find? (fun t => t.innovation == x.innovation) = some y := by
        rw [hxy]
        exact find_innov bg hnd hy
      have hsub2 : ∀ h ∈ ys, h ∈ bg := fun h hh => hsub h (List.mem_cons_of_mem _ hh)
      simp only [List.map_cons, List.zip_cons_cons, List.sum_cons, hfindx]
      rw [ih ys hsub2 hrest]

/-- C4 amended: W̄ pairs the i-th matching gene of A with the i-th matching
gene of B positionally; whenever the shared innovations occur in the same
relative order in both parents this coincides with the claimed pairing by
equal innovation id, and W̄ is 0 when there are no matching genes. -/
theorem avg_weight_same_order_amended (a b : Genome)
    (hb : (innovations b).Nodup)
    (horder : (matchGenesA a b).map (·.innovation)
      = (matchGenesB a b).map (·.innovation)) :
    avgWeightDiff a b = avgWeightDiffSpec a b ∧
      (matchingInnovations a b = [] → avgWeightDiff a b = 0) := by
  constructor
  · simp only [avgWeightDiff, avgWeightDiffSpec]
    have hlen : (matchingInnovations a b).length = (matchGenesA a b).length := by
      rw [matchingInnovations_eq_map, List.length_map]
    have hsub : ∀ h ∈ matchGenesB a b, h ∈ b.genes :=
      fun h hh => List.mem_of_mem_filter hh
    have hmain := zip_sum_find b.genes hb (matchGenesA a b) (matchGenesB a b)
      hsub horder
    rw [hlen, hmain]
  · intro hm
    simp [avgWeightDiff, hm]

/-- Witness for C4's amended statement: `gOrd1` against `gOrdSame`, whose
matching genes appear in the same order. -/
theorem avg_weight_same_order_amended_witness :
    ((innovations gOrdSame).Nodup ∧
      (matchGenesA gOrd1 gOrdSame).map (·.innovation)
        = (matchGenesB gOrd1 gOrdSame).map (·.innovation)) ∧
      avgWeightDiff gOrd1 gOrdSame = avgWeightDiffSpec gOrd1 gOrdSame :=
  ⟨⟨by decide, by decide⟩,
    (avg_weight_same_order_amended gOrd1 gOrdSame (by decide) (by decide)).1⟩

end Neat
